import Mathlib

/-!
Verification of the OtoNote transcription worker
(`transcribe/management/commands/transcribe_worker.py` and
`transcribe/models.py`), shallowly embedded in Lean 4.

Conventions of the embedding:
* timestamps are natural numbers (`timezone.now()` is passed in explicitly);
* audio times are exact rationals (`Rat`) standing for the Python floats;
* the Python `end` field of a diarization segment is called `stop`
  (`end` is a reserved word in Lean);
* external effects (ffmpeg, whisper, pyannote, path resolution) are an
  `Env` of `Except`-valued results: `Except.error e` models the call
  raising the Python exception `e`;
* database saves are assumed to succeed; the worker's file system is a
  list of path strings threaded through the run.
-/

/-- Status choices of `TranscriptionJob` (`models.py`, `STATUS_CHOICES`). -/
inductive Status
  | queued
  | running
  | done
  | error
deriving DecidableEq

/-- The fields of `TranscriptionJob` that the worker reads or writes
(`models.py`).  `segment_sec` and the storage fields (`input_file`,
`r2_key`, `original_filename`) are not modelled as data: the worker only
uses `input_file` through path resolution, which the `Env` models. -/
structure Job where
  id : Nat
  created_at : Nat
  started_at : Option Nat
  finished_at : Option Nat
  status : Status
  progress : Nat
  model_name : String
  language : String
  diarize : Bool
  output_text : String
  error_message : String
deriving DecidableEq

/-- A diarization segment `{"speaker": ..., "start": ..., "end": ...}`
as produced by `diarize_with_pyannote`.  `stop` embeds the Python key
`"end"`. -/
structure Seg where
  speaker : String
  start : Rat
  stop : Rat
deriving DecidableEq

/-- Pass 1 of `merge_segments` (lines 195-201): the loop body, carrying the
currently open segment `last` (the Python `merged[-1]`). -/
def coalesce (gap : Rat) (last : Seg) : List Seg → List Seg
  | [] => [last]
  | s :: rest =>
    if s.speaker = last.speaker ∧ s.start - last.stop ≤ gap then
      coalesce gap { last with stop := max last.stop s.stop } rest
    else
      last :: coalesce gap s rest

/-- Pass 2 of `merge_segments` (lines 203-208): the loop body, carrying the
last emitted segment `last` (the Python `fixed[-1]`).  Note the source
assigns `fixed[-1]["end"] = s["end"]` (plain assignment, not `max`). -/
def absorb (min_dur : Rat) (last : Seg) : List Seg → List Seg
  | [] => [last]
  | s :: rest =>
    if s.stop - s.start < min_dur then
      absorb min_dur { last with stop := s.stop } rest
    else
      last :: absorb min_dur s rest

/-- `merge_segments(segments, min_dur, gap)` (lines 178-209): empty input
gives empty output; otherwise pass 1 coalesces same-speaker segments whose
gap is at most `gap`, then pass 2 absorbs segments shorter than `min_dur`
into the previously emitted segment. -/
def merge_segments (segments : List Seg) (min_dur gap : Rat) : List Seg :=
  match segments with
  | [] => []
  | s :: rest =>
    match coalesce gap s rest with
    | [] => []
    | t :: ts => absorb min_dur t ts

/-- The per-segment progress divisor `total = len(segments) or 1`
(line 290): Python's `or` yields 1 exactly when the length is 0. -/
def totalOf (segs : List Seg) : Nat :=
  if segs.length = 0 then 1 else segs.length

/-- `first()` of a queryset ordered by `created_at` alone
(`order_by("created_at")`, lines 234-237).  SQL leaves the relative order
of rows with equal `created_at` unspecified; the embedding models the
arbitrary table order by the order of the `db` list, so ties go to the
earlier row of the list, which need not be the smaller id. -/
def first_min : List Job → Option Job
  | [] => none
  | j :: rest =>
    match first_min rest with
    | none => some j
    | some k => if j.created_at ≤ k.created_at then some j else some k

/-- The candidate-selection query of the worker loop (lines 234-237):
`TranscriptionJob.objects.filter(status="queued").order_by("created_at").first()`. -/
def claim_next_select (db : List Job) : Option Job :=
  first_min (db.filter (fun j => j.status = Status.queued))

/-- One claim attempt (lines 244-252): inside `transaction.atomic()` with
`select_for_update`, re-read the job's status; if it is still `queued`,
flip it to `running`, stamp `started_at`, reset `progress`, clear
`error_message`; otherwise leave the row untouched and report failure
(the Python `continue`). -/
def claim_attempt (now : Nat) (j : Job) : Bool × Job :=
  if j.status = Status.queued then
    (true, { j with status := Status.running, started_at := some now,
                    progress := 0, error_message := "" })
  else
    (false, j)

/-- `N` racing claim attempts on the same row.  `select_for_update` makes
each attempt's critical section atomic, so any concurrent execution is
equivalent to some sequential order of the `N` attempts; the fold returns
the number of successful attempts and the final row. -/
def run_attempts (now : Nat) : Nat → Job → Nat × Job
  | 0, j => (0, j)
  | n + 1, j =>
    let r := claim_attempt now j
    let rest := run_attempts now n r.2
    ((if r.1 then 1 else 0) + rest.1, rest.2)

/-- The observable outcome of `subprocess.run(cmd, capture_output=True)`:
exit code plus captured output streams. -/
structure CompletedProc where
  returncode : Int
  out : String
  err : String
deriving DecidableEq

/-- The `run(cmd)` helper (lines 64-82), applied to the completed process
`p` that the subprocess call produced: non-zero exit raises a
`RuntimeError` whose message embeds the command line and both captured
streams; zero exit returns normally. -/
def run_helper (cmd : List String) (p : CompletedProc) : Except String Unit :=
  if p.returncode ≠ 0 then
    Except.error
      ("Command failed\n" ++ "cmd: " ++ String.intercalate " " cmd ++
       "\nstdout:\n" ++ p.out ++ "\nstderr:\n" ++ p.err ++ "\n")
  else
    Except.ok ()

/-- `sub` occurs verbatim (as a contiguous substring) in `s`. -/
def containsStr (s sub : String) : Prop :=
  ∃ a b, s = a ++ sub ++ b

-- Sanity example kept as a plain example (not tied to a claim).
example : merge_segments [⟨"A", 0, 1⟩] 1.2 0.4 = [⟨"A", 0, 1⟩] := by decide

/-- A Python exception, as the worker formats it: class name and message
(`f"\x7btype(e).__name__\x7d: \x7be\x7d"`). -/
structure Exc where
  name : String
  msg : String
deriving DecidableEq

/-- `error_message` text written by the except-handler (line 337). -/
def excText (e : Exc) : String :=
  e.name ++ ": " ++ e.msg

/-- The external world of one job iteration.  Each field is the outcome
the corresponding external call would have: `Except.error e` means the
call raises `e`.
* `resolve_input`: `Path(job.input_file.path)` (line 256);
* `load_model`: `whisper.load_model` (line 263);
* `ensure_wav`: the ffmpeg conversion in `ensure_wav_16k_mono` (line 268);
* `transcribe_full`: whole-file `model.transcribe` text (line 276);
* `diarize`: `diarize_with_pyannote` raw segments (line 286), covering the
  missing-HF_TOKEN check and the pyannote pipeline;
* `slice_seg`: the per-segment ffmpeg cut (lines 302-309);
* `transcribe_seg`: the per-segment `model.transcribe` text (line 317). -/
structure Env where
  resolve_input : Except Exc String
  load_model : Except Exc Unit
  ensure_wav : Except Exc Unit
  transcribe_full : Except Exc String
  diarize : Except Exc (List Seg)
  slice_seg : Nat → Except Exc Unit
  transcribe_seg : Nat → Except Exc String

/-- The job's working directory name, `f"job_\x7bjob.id\x7d_temp"`
(line 257). -/
def workDirName (jobId : Nat) : String :=
  "job_" ++ toString jobId ++ "_temp"

/-- A file-system entry: the directory holding the entry and its name
inside that directory (the directory itself is the entry with name 
`""`).  This structured form of a path makes "is inside the work 
directory" a field equality. -/
structure PathE where
  dir : String
  file : String
deriving DecidableEq

/-- Path of the canonical waveform `work_dir / "audio_16k.wav"` (line 267). -/
def wavName (dir : String) : PathE :=
  ⟨dir, "audio_16k.wav"⟩

/-- Path of a per-segment chunk `work_dir / f"seg_\x7bidx\x7d.wav"`
(line 301; the three-digit zero padding of the index is elided, only the
location inside the work directory matters here). -/
def chunkName (dir : String) (idx : Nat) : PathE :=
  ⟨dir, "seg_" ++ toString idx ++ ".wav"⟩

/-- `shutil.rmtree(work_dir)` on the modelled file system: drop the
directory and everything inside it (line 346). -/
def rmtree (dir : String) (fs : List PathE) : List PathE :=
  fs.filter (fun f => ¬ f.dir = dir)

/-- State coming out of the per-segment loop. -/
structure LoopOut where
  fs : List PathE
  writes : List Nat
  job : Job
  results : List String
  exc : Option Exc
deriving DecidableEq

/-- The per-segment loop (lines 293-324), with `idx` the 1-based index of
`enumerate(segments, start=1)`.  A segment shorter than 0.1 s is skipped
entirely (`continue`, line 298) — no chunk, no transcription, no progress
write.  Otherwise: cut the chunk, transcribe it, append
`"[speaker]: text"` when the trimmed text is non-empty, then save
`progress = int(idx * 100 / total)`.  An exception stops the loop and is
reported in `exc` together with the job as mutated so far. -/
def seg_loop (env : Env) (dir : String) (total : Nat) :
    Nat → List Seg → Job → List PathE → List String → List Nat → LoopOut
  | _, [], job, fs, results, writes =>
    { fs := fs, writes := writes, job := job, results := results, exc := none }
  | idx, seg :: rest, job, fs, results, writes =>
    if seg.stop - seg.start < (0.1 : Rat) then
      seg_loop env dir total (idx + 1) rest job fs results writes
    else
      match env.slice_seg idx with
      | Except.error e =>
        { fs := fs, writes := writes, job := job, results := results, exc := some e }
      | Except.ok _ =>
        let fs2 := fs ++ [chunkName dir idx]
        match env.transcribe_seg idx with
        | Except.error e =>
          { fs := fs2, writes := writes, job := job, results := results, exc := some e }
        | Except.ok t =>
          let text := t.trim
          let results2 :=
            if text = "" then results
            else results ++ ["[" ++ seg.speaker ++ "]: " ++ text]
          let p := idx * 100 / total
          seg_loop env dir total (idx + 1) rest { job with progress := p }
            fs2 results2 (writes ++ [p])

/-- State coming out of the try-block body. -/
structure BodyOut where
  fs : List PathE
  writes : List Nat
  job : Job
  exc : Option Exc
deriving DecidableEq

/-- The whole-file branch of the try block (`diarize=False`,
lines 271-283): one transcription of the canonical wav; the trimmed text
becomes `output_text`, the job is `done` with `progress=100`. -/
def full_branch (env : Env) (job : Job) (finTime : Nat)
    (fs1 : List PathE) : BodyOut :=
  match env.transcribe_full with
  | Except.error e => { fs := fs1, writes := [], job := job, exc := some e }
  | Except.ok t =>
    { fs := fs1, writes := [100],
      job := { job with output_text := t.trim, status := Status.done,
                        progress := 100, finished_at := some finTime },
      exc := none }

/-- The diarization branch after the raw segments are known
(lines 287-331): merge with `min_dur=1.2, gap=0.4`, run the per-segment
loop with divisor `len(segments) or 1`, then join the tagged lines with
newlines and stamp `done`/`progress=100`/`finished_at`. -/
def diar_merge (env : Env) (job : Job) (finTime : Nat) (dir : String)
    (fs1 : List PathE) (raw : List Seg) : BodyOut :=
  let segs := merge_segments raw 1.2 0.4
  let out := seg_loop env dir (totalOf segs) 1 segs job fs1 [] []
  match out.exc with
  | some e =>
    { fs := out.fs, writes := out.writes, job := out.job, exc := some e }
  | none =>
    { fs := out.fs, writes := out.writes ++ [100],
      job := { out.job with
                 output_text := String.intercalate "\n" out.results,
                 status := Status.done, progress := 100,
                 finished_at := some finTime },
      exc := none }

/-- The diarization branch of the try block (`diarize=True`, line 286
onwards): run `diarize_with_pyannote`, then process its segments. -/
def diar_branch (env : Env) (job : Job) (finTime : Nat) (dir : String)
    (fs1 : List PathE) : BodyOut :=
  match env.diarize with
  | Except.error e => { fs := fs1, writes := [], job := job, exc := some e }
  | Except.ok raw => diar_merge env job finTime dir fs1 raw

/-- The body of the `try:` block (lines 260-332): load the model, convert
to 16 kHz mono wav (creating `audio_16k.wav` in the work directory), then
branch on `job.diarize`.  An escaping exception is reported in `exc` with
the job as mutated so far. -/
def try_body (env : Env) (job : Job) (finTime : Nat) (dir : String)
    (fs : List PathE) : BodyOut :=
  match env.load_model with
  | Except.error e => { fs := fs, writes := [], job := job, exc := some e }
  | Except.ok _ =>
    match env.ensure_wav with
    | Except.error e => { fs := fs, writes := [], job := job, exc := some e }
    | Except.ok _ =>
      if job.diarize = false then
        full_branch env job finTime (fs ++ [wavName dir])
      else
        diar_branch env job finTime dir (fs ++ [wavName dir])

/-- Outcome of one full iteration of the worker loop for a claimed job. -/
structure IterOut where
  job : Job
  writes : List Nat
  fs : List PathE
  crashed : Option Exc
deriving DecidableEq

/-- One iteration of the worker loop after a successful claim
(lines 254-346).  `Path(job.input_file.path)` and `work_dir.mkdir`
(lines 256-258) run BEFORE the `try:`; an exception there is not caught
by the except-handler and escapes the `while True` loop (`crashed`).
Inside the try, an exception becomes `status="error"` with
`error_message = f"\x7btype(e).__name__\x7d: \x7be\x7d"` and `finished_at`
stamped (lines 334-339); the `finally:` removes the work directory on
every path that entered the try (lines 342-346). -/
def run_claimed_job (env : Env) (job : Job) (finTime : Nat)
    (fs0 : List PathE) : IterOut :=
  match env.resolve_input with
  | Except.error e =>
    { job := job, writes := [], fs := fs0, crashed := some e }
  | Except.ok _ =>
    let dir := workDirName job.id
    -- `work_dir.mkdir` (line 258): the directory itself becomes an entry
    let b := try_body env job finTime dir (fs0 ++ [⟨dir, ""⟩])
    match b.exc with
    | none =>
      { job := b.job, writes := b.writes, fs := rmtree dir b.fs, crashed := none }
    | some e =>
      { job := { b.job with status := Status.error, error_message := excText e,
                            finished_at := some finTime },
        -- the except-handler's `job.save()` persists the current progress
        writes := b.writes ++ [b.job.progress],
        fs := rmtree dir b.fs, crashed := none }

/-- A pass of the worker loop over a queue of already-claimed jobs, each
with its own external world: processing stops (remaining jobs never run)
as soon as one iteration lets an exception escape. -/
def worker_pass (finTime : Nat) : List (Env × Job) → List IterOut × Option Exc
  | [] => ([], none)
  | (env, j) :: rest =>
    let r := run_claimed_job env j finTime []
    match r.crashed with
    | some e => ([r], some e)
    | none =>
      let p := worker_pass finTime rest
      (r :: p.1, p.2)

/-- An external world in which every call succeeds: diarization returns
`raw`, whole-file transcription returns `ft`, segment `i`'s transcription
returns `st i`. -/
def pureEnv (raw : List Seg) (ft : String) (st : Nat → String) : Env :=
  { resolve_input := Except.ok "input"
    load_model := Except.ok ()
    ensure_wav := Except.ok ()
    transcribe_full := Except.ok ft
    diarize := Except.ok raw
    slice_seg := fun _ => Except.ok ()
    transcribe_seg := fun i => Except.ok (st i) }

/-- The sequence of `progress` values the per-segment loop saves when no
call fails, starting at 1-based index `idx`: one write
`idx * 100 / total` per segment of duration at least 0.1 s. -/
def loop_writes (total : Nat) : Nat → List Seg → List Nat
  | _, [] => []
  | idx, s :: rest =>
    if s.stop - s.start < (0.1 : Rat) then loop_writes total (idx + 1) rest
    else idx * 100 / total :: loop_writes total (idx + 1) rest

/-! ## Concrete jobs used by witnesses and counterexamples -/

/-- A freshly queued job. -/
def jobQ : Job :=
  ⟨3, 5, none, none, Status.queued, 0, "small", "auto", true, "", ""⟩

/-- A queued job with id 1, created at time 5. -/
def jobA : Job :=
  ⟨1, 5, none, none, Status.queued, 0, "small", "auto", true, "", ""⟩

/-- A queued job with id 2, also created at time 5. -/
def jobB : Job :=
  ⟨2, 5, none, none, Status.queued, 0, "small", "auto", true, "", ""⟩

/-- A job that has just been claimed (status `running`, progress 0,
empty error message), with `diarize=True`. -/
def jobR : Job :=
  ⟨1, 5, some 6, none, Status.running, 0, "small", "auto", true, "", ""⟩

/-! ## C3: the merger example -/

/-- C3: on input `[{A,0,1},{A,1.2,2},{B,2.3,2.5}]` with `min_dur=1.2`,
`gap=0.4`, `merge_segments` returns exactly `[{A,0,2.5}]`: pass 1
coalesces the two A segments and keeps the B segment separate, pass 2
absorbs the short B segment into the previous one, extending its end
to 2.5. -/
theorem c3_merger_example :
    merge_segments [⟨"A", 0, 1⟩, ⟨"A", 1.2, 2⟩, ⟨"B", 2.3, 2.5⟩] 1.2 0.4 =
      [⟨"A", 0, 2.5⟩] := by
  have hBA : ("B" = "A") = False := by simp
  norm_num [merge_segments, coalesce, absorb, hBA]

/-! ## C8: the run() helper surfaces failures verbatim -/

/-- C8: for every invocation of the external transcoding tool, a non-zero
exit code raises an error whose message carries the joined command line
and the captured stdout and stderr verbatim (as contiguous substrings),
and a zero exit code returns normally. -/
theorem c8_run_surfaces_failure (cmd : List String) (p : CompletedProc) :
    (p.returncode ≠ 0 →
      ∃ m, run_helper cmd p = Except.error m ∧
        containsStr m (String.intercalate " " cmd) ∧
        containsStr m p.out ∧ containsStr m p.err) ∧
    (p.returncode = 0 → run_helper cmd p = Except.ok ()) := by
  constructor
  · intro h
    refine ⟨"Command failed\n" ++ "cmd: " ++ String.intercalate " " cmd ++
      "\nstdout:\n" ++ p.out ++ "\nstderr:\n" ++ p.err ++ "\n",
      by simp [run_helper, h], ?_, ?_, ?_⟩
    · exact ⟨"Command failed\n" ++ "cmd: ",
        "\nstdout:\n" ++ p.out ++ "\nstderr:\n" ++ p.err ++ "\n",
        by simp [String.append_assoc]⟩
    · exact ⟨"Command failed\n" ++ "cmd: " ++ String.intercalate " " cmd ++
        "\nstdout:\n", "\nstderr:\n" ++ p.err ++ "\n",
        by simp [String.append_assoc]⟩
    · exact ⟨"Command failed\n" ++ "cmd: " ++ String.intercalate " " cmd ++
        "\nstdout:\n" ++ p.out ++ "\nstderr:\n", "\n",
        by simp [String.append_assoc]⟩
  · intro h
    simp [run_helper, h]

/-- Witness for C8 at a concrete failing and a concrete succeeding
invocation. -/
theorem c8_run_surfaces_failure_witness :
    (∃ m, run_helper ["ffmpeg", "-y"] ⟨1, "outS", "errS"⟩ = Except.error m ∧
      containsStr m (String.intercalate " " ["ffmpeg", "-y"]) ∧
      containsStr m "outS" ∧ containsStr m "errS") ∧
    run_helper ["ffmpeg", "-y"] ⟨0, "o", "e"⟩ = Except.ok () :=
  ⟨(c8_run_surfaces_failure ["ffmpeg", "-y"] ⟨1, "outS", "errS"⟩).1 (by decide),
   (c8_run_surfaces_failure ["ffmpeg", "-y"] ⟨0, "o", "e"⟩).2 rfl⟩

/-! ## C1: exclusive claim -/

/-- Once a job is no longer `queued`, any number of further claim
attempts succeed zero times and leave the row unchanged. -/
theorem run_attempts_stuck (now : Nat) :
    ∀ n (j : Job), j.status ≠ Status.queued → run_attempts now n j = (0, j) := by
  intro n
  induction n with
  | zero => intro j _; rfl
  | succ m ih =>
    intro j h
    simp [run_attempts, claim_attempt, h, ih j h]

/-- C1: for `n ≥ 1` serialized claim attempts (the row lock serializes
the concurrent critical sections) against one `queued` job, exactly one
attempt succeeds; the final row is `running` with `started_at` stamped,
`progress` reset to 0 and `error_message` cleared; and a further attempt
against the transitioned row re-reads a non-`queued` status, reports
failure and does not mutate the row. -/
theorem c1_exclusive_claim (now n : Nat) (j : Job)
    (hq : j.status = Status.queued) (hn : 1 ≤ n) :
    (run_attempts now n j).1 = 1 ∧
    (run_attempts now n j).2 =
      { j with status := Status.running, started_at := some now,
               progress := 0, error_message := "" } ∧
    claim_attempt now (run_attempts now n j).2 =
      (false, (run_attempts now n j).2) := by
  obtain ⟨m, rfl⟩ : ∃ m, n = m + 1 := ⟨n - 1, by omega⟩
  have h1 : claim_attempt now j =
      (true, { j with status := Status.running, started_at := some now,
                      progress := 0, error_message := "" }) := by
    simp [claim_attempt, hq]
  have h2 := run_attempts_stuck now m
    { j with status := Status.running, started_at := some now,
             progress := 0, error_message := "" } (by simp)
  simp only [run_attempts]
  rw [h1]
  simp only [h2]
  simp [claim_attempt]

/-- Witness for C1: three racing attempts on the concrete queued job
`jobQ` at time 7. -/
theorem c1_exclusive_claim_witness :
    (run_attempts 7 3 jobQ).1 = 1 ∧
    (run_attempts 7 3 jobQ).2 =
      { jobQ with status := Status.running, started_at := some 7,
                  progress := 0, error_message := "" } ∧
    claim_attempt 7 (run_attempts 7 3 jobQ).2 =
      (false, (run_attempts 7 3 jobQ).2) :=
  c1_exclusive_claim 7 3 jobQ rfl (by decide)

/-! ## C5: FIFO selection -/

/-- `first_min` fails only on the empty list. -/
theorem first_min_none : ∀ (l : List Job), first_min l = none → l = [] := by
  intro l h
  cases l with
  | nil => rfl
  | cons a rest =>
    rw [first_min] at h
    cases hr : first_min rest with
    | none => rw [hr] at h; simp at h
    | some k =>
      rw [hr] at h
      by_cases hle : a.created_at ≤ k.created_at
      · simp only [if_pos hle] at h; simp at h
      · simp only [if_neg hle] at h; simp at h

/-- `first_min` returns an element of its input list. -/
theorem first_min_mem : ∀ (l : List Job) (j : Job),
    first_min l = some j → j ∈ l := by
  intro l
  induction l with
  | nil => intro j h; cases h
  | cons a rest ih =>
    intro j h
    rw [first_min] at h
    cases hr : first_min rest with
    | none =>
      rw [hr] at h
      simp at h
      rw [← h]
      exact List.mem_cons_self a rest
    | some k =>
      rw [hr] at h
      by_cases hle : a.created_at ≤ k.created_at
      · simp only [if_pos hle] at h
        simp at h
        rw [← h]
        exact List.mem_cons_self a rest
      · simp only [if_neg hle] at h
        simp at h
        rw [← h]
        exact List.mem_cons_of_mem a (ih k hr)

/-- `first_min` returns a row whose `created_at` is minimal in the list. -/
theorem first_min_le : ∀ (l : List Job) (j : Job),
    first_min l = some j → ∀ k ∈ l, j.created_at ≤ k.created_at := by
  intro l
  induction l with
  | nil => intro j h; cases h
  | cons a rest ih =>
    intro j h k hk
    rw [first_min] at h
    cases hr : first_min rest with
    | none =>
      rw [hr] at h
      simp at h
      have hrest : rest = [] := first_min_none rest hr
      rcases List.mem_cons.mp hk with h1 | h1
      · rw [← h, h1]
      · rw [hrest] at h1; cases h1
    | some m =>
      rw [hr] at h
      by_cases hle : a.created_at ≤ m.created_at
      · simp only [if_pos hle] at h
        simp at h
        rcases List.mem_cons.mp hk with h1 | h1
        · rw [← h, h1]
        · rw [← h]; exact le_trans hle (ih m hr k h1)
      · simp only [if_neg hle] at h
        simp at h
        rcases List.mem_cons.mp hk with h1 | h1
        · rw [← h, h1]; exact le_of_lt (lt_of_not_le hle)
        · rw [← h]; exact ih m hr k h1

/-- `first_min` succeeds on any non-empty list. -/
theorem first_min_isSome : ∀ (l : List Job), l ≠ [] → ∃ j, first_min l = some j := by
  intro l h
  cases hr : first_min l with
  | none => exact absurd (first_min_none l hr) h
  | some k => exact ⟨k, rfl⟩

/-- C5, amended: the worker's candidate query returns some job whenever a
`queued` job exists, and any job it returns is a `queued` row of the
database whose `created_at` is minimal among the `queued` rows.  (The
claimed id tie-break does not hold — see the counterexample.) -/
theorem c5_fifo_amended (db : List Job) :
    ((∃ q ∈ db, q.status = Status.queued) → ∃ j, claim_next_select db = some j) ∧
    (∀ j, claim_next_select db = some j →
      j ∈ db ∧ j.status = Status.queued ∧
      ∀ k ∈ db, k.status = Status.queued → j.created_at ≤ k.created_at) := by
  constructor
  · rintro ⟨q, hq, hqs⟩
    apply first_min_isSome
    intro hempty
    have : q ∈ db.filter (fun j => j.status = Status.queued) :=
      List.mem_filter.mpr ⟨hq, by simp [hqs]⟩
    rw [hempty] at this
    cases this
  · intro j h
    have hmem := first_min_mem _ j h
    have hmf := List.mem_filter.mp hmem
    refine ⟨hmf.1, by simpa using hmf.2, ?_⟩
    intro k hk hks
    exact first_min_le _ j h k (List.mem_filter.mpr ⟨hk, by simp [hks]⟩)

/-- Witness for C5 (amended) on the one-element database `[jobQ]`. -/
theorem c5_fifo_amended_witness :
    (∃ j, claim_next_select [jobQ] = some j) ∧
    (jobQ ∈ [jobQ] ∧ jobQ.status = Status.queued ∧
      ∀ k ∈ [jobQ], k.status = Status.queued → jobQ.created_at ≤ k.created_at) :=
  ⟨(c5_fifo_amended [jobQ]).1 ⟨jobQ, by decide, rfl⟩,
   (c5_fifo_amended [jobQ]).2 jobQ rfl⟩

/-- Counterexample to C5 as stated: with two `queued` jobs sharing
`created_at = 5` and the database's row order listing id 2 first, the
query (which orders by `created_at` alone) returns the job with id 2,
not the job minimal in the order `(created_at, id)`. -/
theorem c5_counterexample :
    claim_next_select [jobB, jobA] = some jobB ∧
    jobA ∈ [jobB, jobA] ∧ jobA.status = Status.queued ∧
    jobA.created_at = jobB.created_at ∧ jobA.id < jobB.id := by decide

/-! ## C4: merger on distinct speakers -/

/-- Spec-side predicate: the segment list is sorted by `start`. -/
def sortedByStart (l : List Seg) : Prop :=
  List.Chain' (fun a b => a.start ≤ b.start) l

/-- Spec-side predicate: every segment has a distinct speaker. -/
def distinctSpeakers (l : List Seg) : Prop :=
  List.Pairwise (fun a b => a.speaker ≠ b.speaker) l

/-- Spec-side predicate: every gap between consecutive segments
exceeds `gap`. -/
def gapsExceed (gap : Rat) (l : List Seg) : Prop :=
  List.Chain' (fun a b => gap < b.start - a.stop) l

/-- Pass 1 never merges anything when consecutive speakers differ. -/
theorem coalesce_sep (gap : Rat) : ∀ (l : List Seg) (last : Seg),
    List.Chain' (fun a b => a.speaker ≠ b.speaker) (last :: l) →
    coalesce gap last l = last :: l := by
  intro l
  induction l with
  | nil => intro last _; rfl
  | cons s rest ih =>
    intro last h
    rw [List.chain'_cons] at h
    have hc : ¬ (s.speaker = last.speaker ∧ s.start - last.stop ≤ gap) := by
      intro hx
      exact h.1 hx.1.symm
    rw [coalesce, if_neg hc, ih s h.2]

/-- Pass 2 never absorbs anything when every remaining segment lasts at
least `min_dur`. -/
theorem absorb_keep (min_dur : Rat) : ∀ (l : List Seg) (last : Seg),
    (∀ s ∈ l, min_dur ≤ s.stop - s.start) →
    absorb min_dur last l = last :: l := by
  intro l
  induction l with
  | nil => intro last _; rfl
  | cons s rest ih =>
    intro last h
    have hc : ¬ (s.stop - s.start < min_dur) :=
      not_lt.mpr (h s (List.mem_cons_self s rest))
    rw [absorb, if_neg hc, ih s (fun t ht => h t (List.mem_cons_of_mem s ht))]

/-- C4, amended: `merge_segments` returns its input unchanged when the
input is sorted by `start`, every segment has a distinct speaker, every
gap between consecutive segments exceeds `gap`, and additionally every
segment lasts at least `min_dur` (without the duration condition the
claim fails: pass 2 absorbs short segments regardless of speaker — see
the counterexample). -/
theorem c4_distinct_amended (gap min_dur : Rat) (l : List Seg)
    (hs : sortedByStart l) (hd : distinctSpeakers l) (hg : gapsExceed gap l)
    (hdur : ∀ s ∈ l, min_dur ≤ s.stop - s.start) :
    merge_segments l min_dur gap = l := by
  cases l with
  | nil => rfl
  | cons s rest =>
    have h1 : coalesce gap s rest = s :: rest :=
      coalesce_sep gap rest s hd.chain'
    have h2 : absorb min_dur s rest = s :: rest :=
      absorb_keep min_dur rest s
        (fun t ht => hdur t (List.mem_cons_of_mem s ht))
    rw [merge_segments, h1]
    exact h2

/-- Witness for C4 (amended) on `[{A,0,2},{B,3,5}]` with the pipeline's
default parameters. -/
theorem c4_distinct_amended_witness :
    merge_segments [⟨"A", 0, 2⟩, ⟨"B", 3, 5⟩] 1.2 0.4 =
      [⟨"A", 0, 2⟩, ⟨"B", 3, 5⟩] := by
  apply c4_distinct_amended
  · show List.Chain' _ _
    norm_num [List.chain'_cons, List.chain'_singleton]
  · show List.Pairwise _ _
    simp
  · show List.Chain' _ _
    norm_num [List.chain'_cons, List.chain'_singleton]
  · intro s hs
    rcases List.mem_cons.mp hs with h | h
    · rw [h]; norm_num
    · rcases List.mem_cons.mp h with h1 | h1
      · rw [h1]; norm_num
      · cases h1

/-- Counterexample to C4 as stated: `[{A,0,0.5},{B,10,10.5}]` is sorted,
has pairwise distinct speakers and a gap of 9.5 > 0.4, yet
`merge_segments` (with the pipeline's `min_dur = 1.2`) absorbs the short
B segment into the A segment and does not return the input unchanged. -/
theorem c4_counterexample :
    sortedByStart [⟨"A", 0, 0.5⟩, ⟨"B", 10, 10.5⟩] ∧
    distinctSpeakers [⟨"A", 0, 0.5⟩, ⟨"B", 10, 10.5⟩] ∧
    gapsExceed 0.4 [⟨"A", 0, 0.5⟩, ⟨"B", 10, 10.5⟩] ∧
    merge_segments [⟨"A", 0, 0.5⟩, ⟨"B", 10, 10.5⟩] 1.2 0.4 ≠
      [⟨"A", 0, 0.5⟩, ⟨"B", 10, 10.5⟩] := by
  refine ⟨?_, ?_, ?_, ?_⟩
  · show List.Chain' _ _
    norm_num [List.chain'_cons, List.chain'_singleton]
  · show List.Pairwise _ _
    simp
  · show List.Chain' _ _
    norm_num [List.chain'_cons, List.chain'_singleton]
  · have hBA : ("B" = "A") = False := by simp
    norm_num [merge_segments, coalesce, absorb, hBA]

/-! ## Helper lemmas about the per-segment loop -/

/-- The per-segment loop never touches `status` or `error_message`. -/
theorem seg_loop_job_inv (env : Env) (dir : String) (total : Nat) :
    ∀ (segs : List Seg) (idx : Nat) (job : Job) (fs : List PathE)
      (results : List String) (writes : List Nat),
      (seg_loop env dir total idx segs job fs results writes).job.status = job.status ∧
      (seg_loop env dir total idx segs job fs results writes).job.error_message =
        job.error_message := by
  intro segs
  induction segs with
  | nil => intro idx job fs results writes; exact ⟨rfl, rfl⟩
  | cons s rest ih =>
    intro idx job fs results writes
    by_cases hc : s.stop - s.start < (0.1 : Rat)
    · simp only [seg_loop, if_pos hc]
      exact ih (idx + 1) job fs results writes
    · simp only [seg_loop, if_neg hc]
      cases hsl : env.slice_seg idx with
      | error e => exact ⟨rfl, rfl⟩
      | ok u =>
        cases hts : env.transcribe_seg idx with
        | error e => exact ⟨rfl, rfl⟩
        | ok t => exact ih (idx + 1) _ _ _ _

/-- If the loop stops with an exception, the job's `progress` stays below
100: the only writes so far are `i * 100 / total` for an index `i`
strictly below `total`. -/
theorem seg_loop_err_lt (env : Env) (dir : String) (total : Nat) (ht : 0 < total) :
    ∀ (segs : List Seg) (idx : Nat) (job : Job) (fs : List PathE)
      (results : List String) (writes : List Nat),
      idx + segs.length ≤ total + 1 → job.progress < 100 →
      ∀ e, (seg_loop env dir total idx segs job fs results writes).exc = some e →
      (seg_loop env dir total idx segs job fs results writes).job.progress < 100 := by
  intro segs
  induction segs with
  | nil =>
    intro idx job fs results writes _ _ e hx
    simp [seg_loop] at hx
  | cons s rest ih =>
    intro idx job fs results writes hlen hprog e hx
    by_cases hc : s.stop - s.start < (0.1 : Rat)
    · simp only [seg_loop, if_pos hc] at hx ⊢
      refine ih (idx + 1) job fs results writes ?_ hprog e hx
      simp only [List.length_cons] at hlen
      omega
    · simp only [seg_loop, if_neg hc] at hx ⊢
      cases hsl : env.slice_seg idx with
      | error e2 =>
        simp only [hsl] at hx ⊢
        exact hprog
      | ok u =>
        simp only [hsl] at hx ⊢
        cases hts : env.transcribe_seg idx with
        | error e3 =>
          simp only [hts] at hx ⊢
          exact hprog
        | ok t =>
          simp only [hts] at hx ⊢
          cases rest with
          | nil => simp [seg_loop] at hx
          | cons s2 r2 =>
            have hidx : idx < total := by
              simp only [List.length_cons] at hlen
              omega
            have hp : idx * 100 / total < 100 := by
              rw [Nat.div_lt_iff_lt_mul ht]
              omega
            refine ih (idx + 1) _ _ _ _ ?_ hp e hx
            simp only [List.length_cons] at hlen ⊢
            omega

/-- When slicing and transcription always succeed, the loop finishes
without an exception and its progress writes are exactly `loop_writes`. -/
theorem seg_loop_pure (raw : List Seg) (ft : String) (st : Nat → String)
    (dir : String) (total : Nat) :
    ∀ (segs : List Seg) (idx : Nat) (job : Job) (fs : List PathE)
      (results : List String) (writes : List Nat),
      (seg_loop (pureEnv raw ft st) dir total idx segs job fs results writes).exc =
        none ∧
      (seg_loop (pureEnv raw ft st) dir total idx segs job fs results writes).writes =
        writes ++ loop_writes total idx segs := by
  intro segs
  induction segs with
  | nil =>
    intro idx job fs results writes
    exact ⟨rfl, by simp [seg_loop, loop_writes]⟩
  | cons s rest ih =>
    intro idx job fs results writes
    by_cases hc : s.stop - s.start < (0.1 : Rat)
    · simp only [seg_loop, loop_writes, if_pos hc]
      exact ih (idx + 1) job fs results writes
    · have hsl : (pureEnv raw ft st).slice_seg idx = Except.ok () := rfl
      have hts : (pureEnv raw ft st).transcribe_seg idx = Except.ok (st idx) := rfl
      simp only [seg_loop, loop_writes, if_neg hc, hsl, hts]
      refine ⟨(ih (idx + 1) _ _ _ _).1, ?_⟩
      rw [(ih (idx + 1) _ _ _ _).2]
      simp

/-- Every file the loop adds to the file system lives in the work
directory: the final file list is the initial one plus entries of `dir`. -/
theorem seg_loop_fs_suffix (env : Env) (dir : String) (total : Nat) :
    ∀ (segs : List Seg) (idx : Nat) (job : Job) (fs : List PathE)
      (results : List String) (writes : List Nat),
      ∃ t, (seg_loop env dir total idx segs job fs results writes).fs = fs ++ t ∧
        ∀ f ∈ t, f.dir = dir := by
  intro segs
  induction segs with
  | nil =>
    intro idx job fs results writes
    exact ⟨[], by simp [seg_loop], by simp⟩
  | cons s rest ih =>
    intro idx job fs results writes
    by_cases hc : s.stop - s.start < (0.1 : Rat)
    · simp only [seg_loop, if_pos hc]
      exact ih (idx + 1) job fs results writes
    · simp only [seg_loop, if_neg hc]
      cases hsl : env.slice_seg idx with
      | error e => exact ⟨[], by simp, by simp⟩
      | ok u =>
        cases hts : env.transcribe_seg idx with
        | error e =>
          refine ⟨[chunkName dir idx], by simp, ?_⟩
          intro f hf
          rcases List.mem_singleton.mp hf with rfl
          rfl
        | ok t =>
          obtain ⟨t2, h1, h2⟩ := ih (idx + 1)
            { job with progress := idx * 100 / total }
            (fs ++ [chunkName dir idx])
            (if t.trim = "" then results
             else results ++ ["[" ++ s.speaker ++ "]: " ++ t.trim])
            (writes ++ [idx * 100 / total])
          refine ⟨chunkName dir idx :: t2, ?_, ?_⟩
          · rw [h1]; simp
          · intro f hf
            rcases List.mem_cons.mp hf with rfl | hf2
            · rfl
            · exact h2 f hf2

/-- Every value in `loop_writes total idx segs` is at least
`idx * 100 / total`. -/
theorem loop_writes_lb (total : Nat) :
    ∀ (segs : List Seg) (idx : Nat) (x : Nat),
      x ∈ loop_writes total idx segs → idx * 100 / total ≤ x := by
  intro segs
  induction segs with
  | nil => intro idx x hx; simp [loop_writes] at hx
  | cons s rest ih =>
    intro idx x hx
    have hstep : idx * 100 / total ≤ (idx + 1) * 100 / total :=
      Nat.div_le_div_right (Nat.mul_le_mul_right 100 (Nat.le_succ idx))
    rw [loop_writes] at hx
    by_cases hc : s.stop - s.start < (0.1 : Rat)
    · rw [if_pos hc] at hx
      exact le_trans hstep (ih (idx + 1) x hx)
    · rw [if_neg hc] at hx
      rcases List.mem_cons.mp hx with h1 | h1
      · rw [h1]
      · exact le_trans hstep (ih (idx + 1) x h1)

/-- Every value in `loop_writes total idx segs` is at most 100, provided
the indices stay within `total`. -/
theorem loop_writes_ub (total : Nat) (ht : 0 < total) :
    ∀ (segs : List Seg) (idx : Nat), idx + segs.length ≤ total + 1 →
      ∀ x ∈ loop_writes total idx segs, x ≤ 100 := by
  intro segs
  induction segs with
  | nil => intro idx _ x hx; simp [loop_writes] at hx
  | cons s rest ih =>
    intro idx hlen x hx
    rw [loop_writes] at hx
    simp only [List.length_cons] at hlen
    by_cases hc : s.stop - s.start < (0.1 : Rat)
    · rw [if_pos hc] at hx
      exact ih (idx + 1) (by omega) x hx
    · rw [if_neg hc] at hx
      rcases List.mem_cons.mp hx with h1 | h1
      · rw [h1]
        have hi : idx ≤ total := by omega
        have h100 : total * 100 / total = 100 := by
          rw [Nat.mul_comm, Nat.mul_div_cancel _ ht]
        calc idx * 100 / total ≤ total * 100 / total :=
              Nat.div_le_div_right (Nat.mul_le_mul_right 100 hi)
          _ = 100 := h100
      · exact ih (idx + 1) (by omega) x h1

/-- The values of `loop_writes` are non-decreasing. -/
theorem loop_writes_pairwise (total : Nat) :
    ∀ (segs : List Seg) (idx : Nat),
      List.Pairwise (fun a b => a ≤ b) (loop_writes total idx segs) := by
  intro segs
  induction segs with
  | nil => intro idx; simp [loop_writes]
  | cons s rest ih =>
    intro idx
    rw [loop_writes]
    by_cases hc : s.stop - s.start < (0.1 : Rat)
    · rw [if_pos hc]; exact ih (idx + 1)
    · rw [if_neg hc]
      refine List.pairwise_cons.mpr ⟨?_, ih (idx + 1)⟩
      intro b hb
      have hstep : idx * 100 / total ≤ (idx + 1) * 100 / total :=
        Nat.div_le_div_right (Nat.mul_le_mul_right 100 (Nat.le_succ idx))
      exact le_trans hstep (loop_writes_lb total rest (idx + 1) b hb)

/-- The divisor `len(segments) or 1` is positive and dominates the
segment count. -/
theorem totalOf_pos_len (segs : List Seg) :
    0 < totalOf segs ∧ segs.length ≤ totalOf segs := by
  rw [totalOf]
  split <;> omega

/-- The worker's formatted error message
`f"\x7btype(e).__name__\x7d: \x7be\x7d"` is never the empty string. -/
theorem excText_ne (e : Exc) : excText e ≠ "" := by
  intro h
  have hlen := congrArg String.length h
  rw [excText] at hlen
  rw [String.length_append, String.length_append] at hlen
  have h2 : (": ").length = 2 := rfl
  simp [h2] at hlen

/-! ## Helper lemmas about the try-block body -/

/-- `diar_merge` without an exception: the job is `done` with
`progress = 100` and untouched `error_message`. -/
theorem diar_merge_ok (env : Env) (job : Job) (finT : Nat) (dir : String)
    (fs1 : List PathE) (raw : List Seg) :
    (diar_merge env job finT dir fs1 raw).exc = none →
    (diar_merge env job finT dir fs1 raw).job.status = Status.done ∧
    (diar_merge env job finT dir fs1 raw).job.progress = 100 ∧
    (diar_merge env job finT dir fs1 raw).job.error_message = job.error_message := by
  intro hx
  simp only [diar_merge] at hx ⊢
  cases hout : (seg_loop env dir (totalOf (merge_segments raw 1.2 0.4)) 1
      (merge_segments raw 1.2 0.4) job fs1 [] []).exc with
  | some e => rw [hout] at hx; exact Option.noConfusion hx
  | none =>
    have hinv := seg_loop_job_inv env dir
      (totalOf (merge_segments raw 1.2 0.4)) (merge_segments raw 1.2 0.4)
      1 job fs1 [] []
    exact ⟨rfl, rfl, hinv.2⟩

/-- `diar_merge` with an exception: `status` and `error_message` keep
their entry values and `progress` stays below 100. -/
theorem diar_merge_err (env : Env) (job : Job) (finT : Nat) (dir : String)
    (fs1 : List PathE) (raw : List Seg) (hp : job.progress < 100) :
    ∀ e, (diar_merge env job finT dir fs1 raw).exc = some e →
    (diar_merge env job finT dir fs1 raw).job.status = job.status ∧
    (diar_merge env job finT dir fs1 raw).job.error_message = job.error_message ∧
    (diar_merge env job finT dir fs1 raw).job.progress < 100 := by
  intro e hx
  simp only [diar_merge] at hx ⊢
  cases hout : (seg_loop env dir (totalOf (merge_segments raw 1.2 0.4)) 1
      (merge_segments raw 1.2 0.4) job fs1 [] []).exc with
  | none => rw [hout] at hx; exact Option.noConfusion hx
  | some e2 =>
    have hinv := seg_loop_job_inv env dir
      (totalOf (merge_segments raw 1.2 0.4)) (merge_segments raw 1.2 0.4)
      1 job fs1 [] []
    have hlt := seg_loop_err_lt env dir
      (totalOf (merge_segments raw 1.2 0.4))
      (totalOf_pos_len (merge_segments raw 1.2 0.4)).1
      (merge_segments raw 1.2 0.4) 1 job fs1 [] []
      (by have := (totalOf_pos_len (merge_segments raw 1.2 0.4)).2; omega)
      hp e2 hout
    exact ⟨hinv.1, hinv.2, hlt⟩

/-- Files added by `diar_merge` all live in the work directory. -/
theorem diar_merge_fs (env : Env) (job : Job) (finT : Nat) (dir : String)
    (fs1 : List PathE) (raw : List Seg) :
    ∃ t, (diar_merge env job finT dir fs1 raw).fs = fs1 ++ t ∧
      ∀ f ∈ t, f.dir = dir := by
  simp only [diar_merge]
  obtain ⟨t2, h1, h2⟩ := seg_loop_fs_suffix env dir
    (totalOf (merge_segments raw 1.2 0.4)) (merge_segments raw 1.2 0.4)
    1 job fs1 [] []
  cases hout : (seg_loop env dir (totalOf (merge_segments raw 1.2 0.4)) 1
      (merge_segments raw 1.2 0.4) job fs1 [] []).exc with
  | some e => exact ⟨t2, h1, h2⟩
  | none => exact ⟨t2, h1, h2⟩

/-- If the try body finishes without an exception, the job is `done` with
`progress = 100` and an untouched `error_message`. -/
theorem try_body_ok (env : Env) (job : Job) (finT : Nat) (dir : String)
    (fs : List PathE) :
    (try_body env job finT dir fs).exc = none →
    (try_body env job finT dir fs).job.status = Status.done ∧
    (try_body env job finT dir fs).job.progress = 100 ∧
    (try_body env job finT dir fs).job.error_message = job.error_message := by
  intro hx
  simp only [try_body] at hx ⊢
  cases hlm : env.load_model with
  | error e => rw [hlm] at hx; exact Option.noConfusion hx
  | ok u =>
    rw [hlm] at hx
    cases hew : env.ensure_wav with
    | error e => rw [hew] at hx; exact Option.noConfusion hx
    | ok v =>
      rw [hew] at hx
      by_cases hd : job.diarize = false
      · rw [if_pos hd] at hx ⊢
        simp only [full_branch] at hx ⊢
        cases htf : env.transcribe_full with
        | error e => rw [htf] at hx; exact Option.noConfusion hx
        | ok t => exact ⟨rfl, rfl, rfl⟩
      · rw [if_neg hd] at hx ⊢
        simp only [diar_branch] at hx ⊢
        cases hdz : env.diarize with
        | error e => rw [hdz] at hx; exact Option.noConfusion hx
        | ok raw =>
          rw [hdz] at hx
          exact diar_merge_ok env job finT dir (fs ++ [wavName dir]) raw hx

/-- If the try body stops with an exception, the job's `status` and
`error_message` are still the entry values and `progress` stays below
100 (given it was below 100 on entry). -/
theorem try_body_err (env : Env) (job : Job) (finT : Nat) (dir : String)
    (fs : List PathE) (hp : job.progress < 100) :
    ∀ e, (try_body env job finT dir fs).exc = some e →
    (try_body env job finT dir fs).job.status = job.status ∧
    (try_body env job finT dir fs).job.error_message = job.error_message ∧
    (try_body env job finT dir fs).job.progress < 100 := by
  intro e hx
  simp only [try_body] at hx ⊢
  cases hlm : env.load_model with
  | error e2 => exact ⟨rfl, rfl, hp⟩
  | ok u =>
    rw [hlm] at hx
    cases hew : env.ensure_wav with
    | error e2 => exact ⟨rfl, rfl, hp⟩
    | ok v =>
      rw [hew] at hx
      by_cases hd : job.diarize = false
      · rw [if_pos hd] at hx ⊢
        simp only [full_branch] at hx ⊢
        cases htf : env.transcribe_full with
        | error e2 => exact ⟨rfl, rfl, hp⟩
        | ok t => rw [htf] at hx; exact Option.noConfusion hx
      · rw [if_neg hd] at hx ⊢
        simp only [diar_branch] at hx ⊢
        cases hdz : env.diarize with
        | error e2 => exact ⟨rfl, rfl, hp⟩
        | ok raw =>
          rw [hdz] at hx
          exact diar_merge_err env job finT dir (fs ++ [wavName dir]) raw hp e hx

/-- Every file the try body adds lives in the work directory. -/
theorem try_body_fs_suffix (env : Env) (job : Job) (finT : Nat) (dir : String)
    (fs : List PathE) :
    ∃ t, (try_body env job finT dir fs).fs = fs ++ t ∧ ∀ f ∈ t, f.dir = dir := by
  simp only [try_body]
  cases hlm : env.load_model with
  | error e => exact ⟨[], by rw [List.append_nil], by simp⟩
  | ok u =>
    cases hew : env.ensure_wav with
    | error e => exact ⟨[], by rw [List.append_nil], by simp⟩
    | ok v =>
      have hwav : ∀ f ∈ [wavName dir], f.dir = dir := by
        intro f hf
        rcases List.mem_singleton.mp hf with rfl
        rfl
      by_cases hd : job.diarize = false
      · rw [if_pos hd]
        simp only [full_branch]
        cases htf : env.transcribe_full with
        | error e => exact ⟨[wavName dir], rfl, hwav⟩
        | ok t => exact ⟨[wavName dir], rfl, hwav⟩
      · rw [if_neg hd]
        simp only [diar_branch]
        cases hdz : env.diarize with
        | error e => exact ⟨[wavName dir], rfl, hwav⟩
        | ok raw =>
          obtain ⟨t2, h1, h2⟩ :=
            diar_merge_fs env job finT dir (fs ++ [wavName dir]) raw
          refine ⟨wavName dir :: t2, ?_, ?_⟩
          · rw [show (diar_merge env job finT dir (fs ++ [wavName dir]) raw).fs =
                (fs ++ [wavName dir]) ++ t2 from h1]
            simp
          · intro f hf
            rcases List.mem_cons.mp hf with rfl | hf2
            · rfl
            · exact h2 f hf2

/-- With a fully successful environment and `diarize=True`, the try body
succeeds and its progress writes are the per-segment writes followed by
the final 100. -/
theorem try_body_pure_diarize (raw : List Seg) (ft : String) (st : Nat → String)
    (job : Job) (finT : Nat) (dir : String) (fs : List PathE)
    (hd : job.diarize = true) :
    (try_body (pureEnv raw ft st) job finT dir fs).exc = none ∧
    (try_body (pureEnv raw ft st) job finT dir fs).writes =
      loop_writes (totalOf (merge_segments raw 1.2 0.4)) 1
        (merge_segments raw 1.2 0.4) ++ [100] := by
  have hloop := seg_loop_pure raw ft st dir
    (totalOf (merge_segments raw 1.2 0.4)) (merge_segments raw 1.2 0.4)
    1 job (fs ++ [wavName dir]) [] []
  have hbody : try_body (pureEnv raw ft st) job finT dir fs =
      diar_merge (pureEnv raw ft st) job finT dir (fs ++ [wavName dir]) raw := by
    simp only [try_body, hd]
    rfl
  rw [hbody]
  simp only [diar_merge]
  rw [hloop.1]
  refine ⟨rfl, ?_⟩
  rw [hloop.2]
  rfl

/-- Behaviour of one worker iteration once the input path resolved: the
iteration never crashes, the `finally:` prunes the work directory, and
the terminal job is the try body's job on success or the error-stamped
job on exception (whose `job.save()` also re-persists the current
progress). -/
theorem run_resolved_spec (env : Env) (job : Job) (finT : Nat)
    (fs0 : List PathE) (s : String) (hr : env.resolve_input = Except.ok s) :
    (run_claimed_job env job finT fs0).crashed = none ∧
    (run_claimed_job env job finT fs0).fs =
      rmtree (workDirName job.id)
        (try_body env job finT (workDirName job.id)
          (fs0 ++ [⟨workDirName job.id, ""⟩])).fs ∧
    ((try_body env job finT (workDirName job.id)
        (fs0 ++ [⟨workDirName job.id, ""⟩])).exc = none →
      (run_claimed_job env job finT fs0).job =
        (try_body env job finT (workDirName job.id)
          (fs0 ++ [⟨workDirName job.id, ""⟩])).job ∧
      (run_claimed_job env job finT fs0).writes =
        (try_body env job finT (workDirName job.id)
          (fs0 ++ [⟨workDirName job.id, ""⟩])).writes) ∧
    (∀ e, (try_body env job finT (workDirName job.id)
        (fs0 ++ [⟨workDirName job.id, ""⟩])).exc = some e →
      (run_claimed_job env job finT fs0).job =
        { (try_body env job finT (workDirName job.id)
            (fs0 ++ [⟨workDirName job.id, ""⟩])).job with
          status := Status.error, error_message := excText e,
          finished_at := some finT } ∧
      (run_claimed_job env job finT fs0).writes =
        (try_body env job finT (workDirName job.id)
          (fs0 ++ [⟨workDirName job.id, ""⟩])).writes ++
        [(try_body env job finT (workDirName job.id)
            (fs0 ++ [⟨workDirName job.id, ""⟩])).job.progress]) := by
  simp only [run_claimed_job]
  cases hr2 : env.resolve_input with
  | error e => rw [hr2] at hr; exact Except.noConfusion hr
  | ok s2 =>
    cases hb : (try_body env job finT (workDirName job.id)
        (fs0 ++ [⟨workDirName job.id, ""⟩])).exc with
    | none =>
      refine ⟨rfl, rfl, fun _ => ⟨rfl, rfl⟩, fun e hx => Option.noConfusion hx⟩
    | some e2 =>
      refine ⟨rfl, rfl, fun hx => Option.noConfusion hx, fun e hx => ?_⟩
      cases hx
      exact ⟨rfl, rfl⟩

/-! ## C7: terminal exclusivity -/

/-- C7: for a claimed job (progress 0, empty error message), whenever the
iteration does not crash, the terminal state is exactly one of
`done`/`error`; `done` implies an empty `error_message` and
`progress = 100`; `error` implies a non-empty `error_message`; and
`progress` is 100 exactly when the status is `done`. -/
theorem c7_terminal_exclusivity (env : Env) (job : Job) (finT : Nat)
    (fs0 : List PathE) (hp : job.progress = 0) (he : job.error_message = "")
    (hc : (run_claimed_job env job finT fs0).crashed = none) :
    ((run_claimed_job env job finT fs0).job.status = Status.done ∨
     (run_claimed_job env job finT fs0).job.status = Status.error) ∧
    ((run_claimed_job env job finT fs0).job.status = Status.done →
      (run_claimed_job env job finT fs0).job.error_message = "" ∧
      (run_claimed_job env job finT fs0).job.progress = 100) ∧
    ((run_claimed_job env job finT fs0).job.status = Status.error →
      (run_claimed_job env job finT fs0).job.error_message ≠ "") ∧
    ((run_claimed_job env job finT fs0).job.progress = 100 ↔
     (run_claimed_job env job finT fs0).job.status = Status.done) := by
  cases hr : env.resolve_input with
  | error e =>
    exfalso
    simp only [run_claimed_job] at hc
    rw [hr] at hc
    exact Option.noConfusion hc
  | ok s =>
    obtain ⟨hcr, hfs, hok, herr⟩ := run_resolved_spec env job finT fs0 s hr
    cases hb : (try_body env job finT (workDirName job.id)
        (fs0 ++ [⟨workDirName job.id, ""⟩])).exc with
    | none =>
      obtain ⟨hj, hw⟩ := hok hb
      obtain ⟨h1, h2, h3⟩ := try_body_ok env job finT (workDirName job.id)
        (fs0 ++ [⟨workDirName job.id, ""⟩]) hb
      rw [hj]
      refine ⟨Or.inl h1, fun _ => ⟨h3.trans he, h2⟩, fun hco => ?_,
        ⟨fun _ => h1, fun _ => h2⟩⟩
      rw [h1] at hco
      exact Status.noConfusion hco
    | some e =>
      obtain ⟨hj, hw⟩ := herr e hb
      obtain ⟨h1, h2, h3⟩ := try_body_err env job finT (workDirName job.id)
        (fs0 ++ [⟨workDirName job.id, ""⟩]) (by omega) e hb
      rw [hj]
      refine ⟨Or.inr rfl, fun hco => Status.noConfusion hco,
        fun _ => excText_ne e, ⟨fun hx => ?_, fun hx => Status.noConfusion hx⟩⟩
      exact absurd hx (Nat.ne_of_lt h3)

/-- Witness for C7 on a concrete claimed job whose run succeeds with no
segments. -/
theorem c7_terminal_exclusivity_witness :
    ((run_claimed_job (pureEnv [] "" (fun _ => "x")) jobR 7 []).job.status =
        Status.done ∨
     (run_claimed_job (pureEnv [] "" (fun _ => "x")) jobR 7 []).job.status =
        Status.error) ∧
    ((run_claimed_job (pureEnv [] "" (fun _ => "x")) jobR 7 []).job.status =
        Status.done →
      (run_claimed_job (pureEnv [] "" (fun _ => "x")) jobR 7 []).job.error_message
          = "" ∧
      (run_claimed_job (pureEnv [] "" (fun _ => "x")) jobR 7 []).job.progress
          = 100) ∧
    ((run_claimed_job (pureEnv [] "" (fun _ => "x")) jobR 7 []).job.status =
        Status.error →
      (run_claimed_job (pureEnv [] "" (fun _ => "x")) jobR 7 []).job.error_message
          ≠ "") ∧
    ((run_claimed_job (pureEnv [] "" (fun _ => "x")) jobR 7 []).job.progress =
        100 ↔
     (run_claimed_job (pureEnv [] "" (fun _ => "x")) jobR 7 []).job.status =
        Status.done) :=
  c7_terminal_exclusivity (pureEnv [] "" (fun _ => "x")) jobR 7 [] rfl rfl rfl

/-! ## C9: cleanup of working storage -/

/-- C9: on every exit path of an iteration, starting from a file system
with no entries inside this job's work directory, the file system after
the iteration is exactly the initial one — every working file (the
converted waveform, the per-segment slices and the directory entry
itself) has been removed — and in particular no file inside the job's
work directory remains. -/
theorem c9_cleanup (env : Env) (job : Job) (finT : Nat) (fs0 : List PathE)
    (h : ∀ f ∈ fs0, f.dir ≠ workDirName job.id) :
    (run_claimed_job env job finT fs0).fs = fs0 ∧
    ∀ f ∈ (run_claimed_job env job finT fs0).fs, f.dir ≠ workDirName job.id := by
  cases hr : env.resolve_input with
  | error e =>
    -- the uncaught path: nothing was created yet, the file system is
    -- untouched
    constructor
    · simp only [run_claimed_job]
      rw [hr]
    · intro f hf
      apply h
      simp only [run_claimed_job] at hf
      rw [hr] at hf
      exact hf
  | ok s =>
    obtain ⟨hcr, hfs, _, _⟩ := run_resolved_spec env job finT fs0 s hr
    obtain ⟨t, hft, hfd⟩ := try_body_fs_suffix env job finT (workDirName job.id)
      (fs0 ++ [⟨workDirName job.id, ""⟩])
    rw [hfs, hft]
    have h1 : List.filter (fun f => ¬ f.dir = workDirName job.id) fs0 = fs0 :=
      List.filter_eq_self.mpr (fun a ha => by simpa using h a ha)
    have h2 : List.filter (fun f => ¬ f.dir = workDirName job.id)
        [(⟨workDirName job.id, ""⟩ : PathE)] = [] := by simp
    have h3 : List.filter (fun f => ¬ f.dir = workDirName job.id) t = [] := by
      rw [List.filter_eq_nil_iff]
      intro a ha
      simp [hfd a ha]
    constructor
    · rw [rmtree, List.filter_append, List.filter_append, h1, h2, h3]
      simp
    · intro f hf
      rw [rmtree, List.filter_append, List.filter_append, h1, h2, h3] at hf
      simp only [List.append_nil] at hf
      exact h f hf

/-- Witness for C9: a run over a file system holding one unrelated file. -/
theorem c9_cleanup_witness :
    (run_claimed_job (pureEnv [] "" (fun _ => "x")) jobR 7
        [⟨"media", "other.wav"⟩]).fs = [⟨"media", "other.wav"⟩] ∧
    ∀ f ∈ (run_claimed_job (pureEnv [] "" (fun _ => "x")) jobR 7
        [⟨"media", "other.wav"⟩]).fs, f.dir ≠ workDirName jobR.id :=
  c9_cleanup (pureEnv [] "" (fun _ => "x")) jobR 7 [⟨"media", "other.wav"⟩]
    (by decide)

/-! ## C10: empty merged segment list -/

/-- With every call succeeding and `diarize=True`, the try body is the
diarization branch. -/
theorem try_body_pure_eq (raw : List Seg) (ft : String) (st : Nat → String)
    (job : Job) (finT : Nat) (dir : String) (fs : List PathE)
    (hd : job.diarize = true) :
    try_body (pureEnv raw ft st) job finT dir fs =
      diar_merge (pureEnv raw ft st) job finT dir (fs ++ [wavName dir]) raw := by
  simp only [try_body, hd]
  rfl

/-- C10: a `diarize=True` job whose merged segment list is empty takes
the divisor `len(segments) or 1 = 1` (so the progress computation never
divides by zero), does not crash, and completes with `status=done`,
`output_text=""` and `progress=100`. -/
theorem c10_empty_segments (raw : List Seg) (ft : String) (st : Nat → String)
    (job : Job) (finT : Nat) (fs0 : List PathE)
    (hd : job.diarize = true) (hm : merge_segments raw 1.2 0.4 = []) :
    (run_claimed_job (pureEnv raw ft st) job finT fs0).crashed = none ∧
    (run_claimed_job (pureEnv raw ft st) job finT fs0).job.status =
      Status.done ∧
    (run_claimed_job (pureEnv raw ft st) job finT fs0).job.output_text = "" ∧
    (run_claimed_job (pureEnv raw ft st) job finT fs0).job.progress = 100 ∧
    totalOf (merge_segments raw 1.2 0.4) = 1 := by
  have hr : (pureEnv raw ft st).resolve_input = Except.ok "input" := rfl
  obtain ⟨hcr, hfs, hok, herr⟩ :=
    run_resolved_spec (pureEnv raw ft st) job finT fs0 "input" hr
  have heq := try_body_pure_eq raw ft st job finT (workDirName job.id)
    (fs0 ++ [⟨workDirName job.id, ""⟩]) hd
  have hexc : (diar_merge (pureEnv raw ft st) job finT (workDirName job.id)
      ((fs0 ++ [⟨workDirName job.id, ""⟩]) ++ [wavName (workDirName job.id)])
      raw).exc = none := by
    simp only [diar_merge, hm]
    rfl
  have hjob : (diar_merge (pureEnv raw ft st) job finT (workDirName job.id)
      ((fs0 ++ [⟨workDirName job.id, ""⟩]) ++ [wavName (workDirName job.id)])
      raw).job =
      { job with output_text := "", status := Status.done, progress := 100,
                 finished_at := some finT } := by
    simp only [diar_merge, hm]
    rfl
  obtain ⟨hj, hw⟩ := hok (by rw [heq]; exact hexc)
  refine ⟨hcr, ?_, ?_, ?_, by rw [hm]; rfl⟩
  · rw [hj, heq, hjob]
  · rw [hj, heq, hjob]
  · rw [hj, heq, hjob]

/-- Witness for C10 at the concrete empty diarization output. -/
theorem c10_empty_segments_witness :
    (run_claimed_job (pureEnv [] "t" (fun _ => "x")) jobR 7 []).crashed = none ∧
    (run_claimed_job (pureEnv [] "t" (fun _ => "x")) jobR 7 []).job.status =
      Status.done ∧
    (run_claimed_job (pureEnv [] "t" (fun _ => "x")) jobR 7 []).job.output_text
      = "" ∧
    (run_claimed_job (pureEnv [] "t" (fun _ => "x")) jobR 7 []).job.progress
      = 100 ∧
    totalOf (merge_segments [] 1.2 0.4) = 1 :=
  c10_empty_segments [] "t" (fun _ => "x") jobR 7 [] rfl rfl

/-! ## C2: progress writes -/

/-- C2, amended: within a fully successful `diarize=True` run, the
`progress` writes are exactly one write `floor(idx * 100 / total)` per
merged segment of duration at least 0.1 s (segments shorter than 0.1 s
are skipped by the `continue` with no progress write), followed by the
final write of 100; together with the claim-time reset 0 the written
sequence is non-decreasing and ends at exactly 100. -/
theorem c2_progress_amended (raw : List Seg) (ft : String) (st : Nat → String)
    (job : Job) (finT : Nat) (fs0 : List PathE) (hd : job.diarize = true) :
    (run_claimed_job (pureEnv raw ft st) job finT fs0).writes =
      loop_writes (totalOf (merge_segments raw 1.2 0.4)) 1
        (merge_segments raw 1.2 0.4) ++ [100] ∧
    List.Chain' (fun a b => a ≤ b)
      (0 :: (run_claimed_job (pureEnv raw ft st) job finT fs0).writes) ∧
    (run_claimed_job (pureEnv raw ft st) job finT fs0).writes.getLast? =
      some 100 := by
  have hr : (pureEnv raw ft st).resolve_input = Except.ok "input" := rfl
  obtain ⟨hcr, hfs, hok, herr⟩ :=
    run_resolved_spec (pureEnv raw ft st) job finT fs0 "input" hr
  have hb := try_body_pure_diarize raw ft st job finT (workDirName job.id)
    (fs0 ++ [⟨workDirName job.id, ""⟩]) hd
  obtain ⟨hj, hw⟩ := hok hb.1
  have hwr : (run_claimed_job (pureEnv raw ft st) job finT fs0).writes =
      loop_writes (totalOf (merge_segments raw 1.2 0.4)) 1
        (merge_segments raw 1.2 0.4) ++ [100] := hw.trans hb.2
  have hT := totalOf_pos_len (merge_segments raw 1.2 0.4)
  refine ⟨hwr, ?_, ?_⟩
  · rw [hwr]
    have hpw : List.Pairwise (fun a b => a ≤ b)
        ((0 : Nat) :: (loop_writes (totalOf (merge_segments raw 1.2 0.4)) 1
          (merge_segments raw 1.2 0.4) ++ [100])) := by
      refine List.Pairwise.cons (fun b _ => Nat.zero_le b) ?_
      refine List.pairwise_append.mpr
        ⟨loop_writes_pairwise (totalOf (merge_segments raw 1.2 0.4))
            (merge_segments raw 1.2 0.4) 1,
         List.pairwise_singleton _ _, ?_⟩
      intro x hx y hy
      rcases List.mem_singleton.mp hy with rfl
      exact loop_writes_ub (totalOf (merge_segments raw 1.2 0.4)) hT.1
        (merge_segments raw 1.2 0.4) 1 (by omega) x hx
    exact hpw.chain'
  · rw [hwr]
    simp

/-- Witness for C2 (amended) on a concrete successful run. -/
theorem c2_progress_amended_witness :
    (run_claimed_job (pureEnv [] "" (fun _ => "x")) jobR 7 []).writes =
      loop_writes (totalOf (merge_segments [] 1.2 0.4)) 1
        (merge_segments [] 1.2 0.4) ++ [100] ∧
    List.Chain' (fun a b => a ≤ b)
      (0 :: (run_claimed_job (pureEnv [] "" (fun _ => "x")) jobR 7 []).writes) ∧
    (run_claimed_job (pureEnv [] "" (fun _ => "x")) jobR 7 []).writes.getLast? =
      some 100 :=
  c2_progress_amended [] "" (fun _ => "x") jobR 7 [] rfl

/-- The raw diarization output refuting C2 as stated: its first segment
is shorter than 0.1 s and `merge_segments` keeps it unchanged. -/
def rawC2 : List Seg := [⟨"A", 0, 0.05⟩, ⟨"A", 5, 10⟩]

/-- Counterexample to C2 as stated: a successful run over two merged
segments (total = 2) in which segment 1 (duration 0.05 s < 0.1 s) is
skipped by the `continue`, so the claimed write
`floor(1 * 100 / 2) = 50` never happens — the written values are
`[100, 100]`. -/
theorem c2_progress_counterexample :
    merge_segments rawC2 1.2 0.4 = rawC2 ∧
    (merge_segments rawC2 1.2 0.4).length = 2 ∧
    (run_claimed_job (pureEnv rawC2 "" (fun _ => "hi")) jobR 7 []).job.status =
      Status.done ∧
    (run_claimed_job (pureEnv rawC2 "" (fun _ => "hi")) jobR 7 []).writes =
      [100, 100] ∧
    (1 * 100 / 2 : Nat) = 50 ∧
    (50 : Nat) ∉ (run_claimed_job (pureEnv rawC2 "" (fun _ => "hi")) jobR 7
      []).writes := by
  have hm : merge_segments rawC2 1.2 0.4 = rawC2 := by
    norm_num [merge_segments, rawC2, coalesce, absorb]
  have hlw : loop_writes 2 1 rawC2 = [100] := by
    norm_num [loop_writes, rawC2]
  have hr : (pureEnv rawC2 "" (fun _ => "hi")).resolve_input =
      Except.ok "input" := rfl
  obtain ⟨hcr, hfs, hok, herr⟩ :=
    run_resolved_spec (pureEnv rawC2 "" (fun _ => "hi")) jobR 7 [] "input" hr
  have hb := try_body_pure_diarize rawC2 "" (fun _ => "hi") jobR 7
    (workDirName jobR.id) ([] ++ [⟨workDirName jobR.id, ""⟩]) rfl
  obtain ⟨hj, hw⟩ := hok hb.1
  have hwr : (run_claimed_job (pureEnv rawC2 "" (fun _ => "hi")) jobR 7
      []).writes = [100, 100] := by
    rw [hw.trans hb.2, hm]
    rw [show totalOf rawC2 = 2 from rfl, hlw]
    rfl
  obtain ⟨hst, _, _⟩ := try_body_ok (pureEnv rawC2 "" (fun _ => "hi")) jobR 7
    (workDirName jobR.id) ([] ++ [⟨workDirName jobR.id, ""⟩]) hb.1
  refine ⟨hm, by rw [hm]; rfl, ?_, hwr, by norm_num, by rw [hwr]; decide⟩
  rw [hj]
  exact hst

/-! ## C6: exception handling at the loop boundary -/

/-- C6, amended: once the input path has resolved (the code before the
`try:`), an iteration never crashes, and any exception raised inside the
try block is converted into `status="error"` with
`error_message = f"\x7btype(e).__name__\x7d: \x7be\x7d"` (the failure kind and
the underlying message); a worker pass over jobs whose input paths all
resolve processes every job.  Exceptions raised during input-path
resolution itself are NOT caught and abort the loop — see the
counterexample. -/
theorem c6_catch_amended :
    (∀ (env : Env) (job : Job) (finT : Nat) (fs0 : List PathE) (s : String),
      env.resolve_input = Except.ok s →
      (run_claimed_job env job finT fs0).crashed = none ∧
      ∀ e, (try_body env job finT (workDirName job.id)
          (fs0 ++ [⟨workDirName job.id, ""⟩])).exc = some e →
        (run_claimed_job env job finT fs0).job.status = Status.error ∧
        (run_claimed_job env job finT fs0).job.error_message = excText e) ∧
    (∀ (finT : Nat) (items : List (Env × Job)),
      (∀ it ∈ items, ∃ s, it.1.resolve_input = Except.ok s) →
      (worker_pass finT items).2 = none ∧
      (worker_pass finT items).1.length = items.length) := by
  constructor
  · intro env job finT fs0 s hr
    obtain ⟨hcr, _, _, herr⟩ := run_resolved_spec env job finT fs0 s hr
    refine ⟨hcr, fun e hx => ?_⟩
    obtain ⟨hj, _⟩ := herr e hx
    rw [hj]
    exact ⟨rfl, rfl⟩
  · intro finT items
    induction items with
    | nil => intro _; exact ⟨rfl, rfl⟩
    | cons it rest ih =>
      obtain ⟨env2, j2⟩ := it
      intro hres
      obtain ⟨s, hs⟩ := hres (env2, j2) (List.mem_cons_self _ rest)
      have hcr := (run_resolved_spec env2 j2 finT [] s hs).1
      obtain ⟨h1, h2⟩ := ih (fun x hx => hres x (List.mem_cons_of_mem _ hx))
      simp only [worker_pass]
      rw [hcr]
      exact ⟨h1, by simp [h2]⟩

/-- An environment whose model loading raises (e.g. an out-of-memory
condition inside `whisper.load_model`); everything else succeeds. -/
def envLoadFail : Env :=
  { pureEnv [] "" (fun _ => "x") with
    load_model := Except.error ⟨"RuntimeError", "CUDA out of memory"⟩ }

/-- Witness for C6 (amended): the load failure is caught and stamped,
and a two-job pass with resolving inputs processes both jobs. -/
theorem c6_catch_amended_witness :
    (run_claimed_job envLoadFail jobR 7 []).crashed = none ∧
    ((run_claimed_job envLoadFail jobR 7 []).job.status = Status.error ∧
     (run_claimed_job envLoadFail jobR 7 []).job.error_message =
       excText ⟨"RuntimeError", "CUDA out of memory"⟩) ∧
    (worker_pass 7 [(envLoadFail, jobR),
      (pureEnv [] "" (fun _ => "x"), jobR)]).2 = none ∧
    (worker_pass 7 [(envLoadFail, jobR),
      (pureEnv [] "" (fun _ => "x"), jobR)]).1.length = 2 := by
  have h1 := c6_catch_amended.1 envLoadFail jobR 7 [] "input" rfl
  have h2 := c6_catch_amended.2 7
    [(envLoadFail, jobR), (pureEnv [] "" (fun _ => "x"), jobR)]
    (by
      intro it hit
      rcases List.mem_cons.mp hit with rfl | hit2
      · exact ⟨"input", rfl⟩
      · rcases List.mem_cons.mp hit2 with rfl | hit3
        · exact ⟨"input", rfl⟩
        · cases hit3)
  exact ⟨h1.1, h1.2 ⟨"RuntimeError", "CUDA out of memory"⟩ rfl, h2.1, h2.2⟩

/-- An environment in which input-path resolution itself raises, as
`Path(job.input_file.path)` does for a job saved without a file
(`input_file` is nullable in `models.py`). -/
def envResolveFail : Env :=
  { pureEnv [] "" (fun _ => "x") with
    resolve_input := Except.error ⟨"ValueError",
      "The 'input_file' attribute has no file associated with it."⟩ }

/-- Counterexample to C6 as stated: `Path(job.input_file.path)` (line
256) runs BEFORE the `try:`, so a resolution failure escapes the
`while True` loop: the iteration crashes and a second claimed job is
never processed (the pass stops after one job). -/
theorem c6_uncaught_counterexample :
    (run_claimed_job envResolveFail jobR 7 []).crashed =
      some ⟨"ValueError",
        "The 'input_file' attribute has no file associated with it."⟩ ∧
    (worker_pass 7 [(envResolveFail, jobR),
      (pureEnv [] "" (fun _ => "x"), jobR)]).2 ≠ none ∧
    (worker_pass 7 [(envResolveFail, jobR),
      (pureEnv [] "" (fun _ => "x"), jobR)]).1.length = 1 := by
  refine ⟨rfl, ?_, rfl⟩
  intro hx
  exact Option.noConfusion hx
